import Mathlib

/-!
Shallow embedding of the server-side simulation core of the multiplayer
arena-shooter server (Express/Socket.IO game server): the entity store
(players / bullets / zone), the per-connection command handlers
(join, move, shoot, disconnect) and the fixed-cadence game loop
(bullet advance, hit detection, zone shrink, zone damage).

Numbers are modelled as exact rationals (`ℚ`).  The two sources of
environment input — `Math.random()` at spawn, `nanoid()` for bullet ids,
and the trigonometric functions used by bullet advance — are passed in
as explicit parameters (`rx ry : ℚ`, `bid : String`, `cosf sinf : ℚ → ℚ`),
so every definition is executable.

The JS object `gameState.players : Record<string, Player>` iterates its
string keys in insertion order; it is modelled as an insertion-ordered
association list `List (String × Player)` with first-occurrence lookup,
in-place update and append-on-new-key insertion.
-/

set_option maxHeartbeats 1000000

namespace ArenaServer

/-- `interface Player` (server, lines 17-27). -/
structure Player where
  id : String
  name : String
  x : ℚ
  y : ℚ
  health : ℚ
  teamId : String
  kills : ℕ
  isDead : Bool
  angle : ℚ
  deriving DecidableEq

/-- A bullet as pushed by the `shoot` handler (lines 98-108). -/
structure Bullet where
  id : String
  ownerId : String
  teamId : String
  x : ℚ
  y : ℚ
  angle : ℚ
  speed : ℚ
  distance : ℚ
  maxDistance : ℚ
  deriving DecidableEq

/-- The `zone` component of `GameState` (lines 32-37). -/
structure Zone where
  x : ℚ
  y : ℚ
  radius : ℚ
  targetRadius : ℚ
  deriving DecidableEq

/-- `gameState.players`, an insertion-ordered string-keyed map. -/
abbrev Players := List (String × Player)

/-- `interface GameState` (lines 29-38). -/
structure GameState where
  players : Players
  bullets : List Bullet
  zone : Zone
  deriving DecidableEq

/-- `const MAP_SIZE = 2000` (line 40). -/
def MAP_SIZE : ℚ := 2000

/-- `const INITIAL_ZONE_RADIUS = 1200` (line 41). -/
def INITIAL_ZONE_RADIUS : ℚ := 1200

/-- The initial `gameState` object (lines 53-62). -/
def initialGameState : GameState :=
  { players := []
    bullets := []
    zone :=
      { x := MAP_SIZE / 2
        y := MAP_SIZE / 2
        radius := INITIAL_ZONE_RADIUS
        targetRadius := INITIAL_ZONE_RADIUS } }

/-- First-occurrence lookup, `gameState.players[k]`. -/
def lookupP (k : String) : Players → Option Player
  | [] => none
  | (k', p) :: rest => if k' = k then some p else lookupP k rest

/-- `gameState.players[k] = v`: replace in place if the key exists
(JS objects keep the original insertion position), append otherwise. -/
def setKey (k : String) (v : Player) : Players → Players
  | [] => [(k, v)]
  | (k', p) :: rest => if k' = k then (k', v) :: rest else (k', p) :: setKey k v rest

/-- In-place mutation of the player stored under an existing key
(`player.x = ...` through the reference `gameState.players[k]`);
identity when the key is absent. -/
def updateKey (k : String) (f : Player → Player) : Players → Players
  | [] => []
  | (k', p) :: rest => if k' = k then (k', f p) :: rest else (k', p) :: updateKey k f rest

/-- `delete gameState.players[k]` (line 113). -/
def removeKey (k : String) : Players → Players
  | [] => []
  | (k', p) :: rest => if k' = k then rest else (k', p) :: removeKey k rest

/-- The `mode` field of the join payload: `"solo" | "duo" | "squad"`. -/
inductive Mode where
  | solo
  | duo
  | squad
  deriving DecidableEq

/-- Team assignment of the `join` handler (line 68): solo players team with
themselves; duo/squad teams are derived from the current player count
(`Object.keys(gameState.players).length`, taken before insertion) by
flooring division by the party size. -/
def teamIdFor (mode : Mode) (sid : String) (count : ℕ) : String :=
  match mode with
  | .solo => sid
  | .duo => "team-d-" ++ toString (count / 2)
  | .squad => "team-s-" ++ toString (count / 4)

/-- The player object created by the `join` handler (lines 70-80); `rx ry`
are the two `Math.random()` draws. -/
def freshPlayer (sid name : String) (mode : Mode) (rx ry : ℚ) (count : ℕ) : Player :=
  { id := sid
    name := if name = "" then "Player" else name
    x := rx * MAP_SIZE
    y := ry * MAP_SIZE
    health := 100
    teamId := teamIdFor mode sid count
    kills := 0
    isDead := false
    angle := 0 }

/-- `socket.on("join", ...)` (lines 67-84): computes the team id from the
current player count, then assigns `gameState.players[socket.id]`. -/
def join (sid name : String) (mode : Mode) (rx ry : ℚ) (g : GameState) : GameState :=
  { g with players := setKey sid (freshPlayer sid name mode rx ry g.players.length) g.players }

/-- `socket.on("move", ...)` (lines 86-93): no-op unless the player exists
and is alive; clamps x and y to `[0, MAP_SIZE]`, sets the angle verbatim. -/
def move (sid : String) (mx my ma : ℚ) (g : GameState) : GameState :=
  match lookupP sid g.players with
  | none => g
  | some p =>
      if p.isDead then g
      else
        { g with players := updateKey sid (fun q =>
            { q with x := max 0 (min MAP_SIZE mx)
                     y := max 0 (min MAP_SIZE my)
                     angle := ma }) g.players }

/-- `socket.on("shoot", ...)` (lines 95-110): no-op unless the player exists
and is alive; pushes one bullet spawned at the player's position/angle.
`bid` is the `nanoid()` draw. -/
def shoot (sid bid : String) (g : GameState) : GameState :=
  match lookupP sid g.players with
  | none => g
  | some p =>
      if p.isDead then g
      else
        { g with bullets := g.bullets ++
            [{ id := bid
               ownerId := sid
               teamId := p.teamId
               x := p.x
               y := p.y
               angle := p.angle
               speed := 15
               distance := 0
               maxDistance := 600 }] }

/-- `socket.on("disconnect", ...)` (lines 112-115): removes the player. -/
def disconnect (sid : String) (g : GameState) : GameState :=
  { g with players := removeKey sid g.players }

/-- Bullet advance (lines 123-125): `b.x += cos(b.angle)*b.speed`,
`b.y += sin(b.angle)*b.speed`, `b.distance += b.speed`. -/
def advanceBullet (cosf sinf : ℚ → ℚ) (b : Bullet) : Bullet :=
  { b with x := b.x + cosf b.angle * b.speed
           y := b.y + sinf b.angle * b.speed
           distance := b.distance + b.speed }

/-- The hit-candidate test of the collision loop (lines 135-137):
`p.id !== b.ownerId && p.teamId !== b.teamId && !p.isDead` and
`sqrt((p.x-b.x)² + (p.y-b.y)²) < 20`; since both sides of that last
comparison are non-negative it is equivalent to the squared form
`(p.x-b.x)² + (p.y-b.y)² < 400`, which keeps the test decidable. -/
def isHitCandidate (b : Bullet) (p : Player) : Bool :=
  p.id ≠ b.ownerId && p.teamId ≠ b.teamId && !p.isDead &&
    ((p.x - b.x) ^ 2 + (p.y - b.y) ^ 2 < 400)

/-- The inner `for (const pid in gameState.players)` scan (lines 133-150):
the first entry, in insertion order, passing `isHitCandidate`. -/
def findHit (b : Bullet) : Players → Option (String × Player)
  | [] => none
  | (k, p) :: rest => if isHitCandidate b p then some (k, p) else findHit b rest

/-- Effect of a hit on the store (lines 138-146): the victim found at key
`vpid` with pre-state `vp` loses 20 health and is marked dead when that
brings health to ≤ 0; on a kill, the owner's kill counter is incremented
when the owner is still present (`if (killer) killer.kills++`). -/
def applyHit (b : Bullet) (vpid : String) (vp : Player) (ps : Players) : Players :=
  let ps1 := updateKey vpid (fun q =>
    { q with health := q.health - 20
             isDead := if q.health - 20 ≤ 0 then true else q.isDead }) ps
  if vp.health - 20 ≤ 0 then
    updateKey b.ownerId (fun q => { q with kills := q.kills + 1 }) ps1
  else ps1

/-- One iteration of the bullet loop (lines 121-151) for a single bullet:
advance it; retire it without a hit check when it exceeds `maxDistance`;
otherwise scan for a hit, and on the first qualifying candidate apply
the damage and retire the bullet.  Returns the surviving bullet (if any)
and the updated player map. -/
def stepBullet (cosf sinf : ℚ → ℚ) (b : Bullet) (ps : Players) : Option Bullet × Players :=
  let b' := advanceBullet cosf sinf b
  if b'.distance > b'.maxDistance then (none, ps)
  else
    match findHit b' ps with
    | none => (some b', ps)
    | some (vpid, vp) => (none, applyHit b' vpid vp ps)

/-- The bullet loop (lines 121-151): `for (let i = bullets.length - 1; i >= 0; i--)`
processes the array back to front, splicing out retired bullets, so the
last bullet is processed first and survivors keep their original order. -/
def runBullets (cosf sinf : ℚ → ℚ) : List Bullet → Players → List Bullet × Players
  | [], ps => ([], ps)
  | b :: rest, ps =>
      let (rest', ps') := runBullets cosf sinf rest ps
      match stepBullet cosf sinf b ps' with
      | (none, ps'') => (rest', ps'')
      | (some b', ps'') => (b' :: rest', ps'')

/-- Zone shrink (lines 153-156): `if (radius > 50) radius -= 0.1`. -/
def zoneShrink (z : Zone) : Zone :=
  if z.radius > 50 then { z with radius := z.radius - 1/10 } else z

/-- Zone damage for one player (lines 159-171): an alive player strictly
farther from the zone center than the current radius loses 0.5 health,
and is marked dead when that brings health to ≤ 0.  The source compares
`sqrt((p.x-z.x)² + (p.y-z.y)²) > radius`; for real `radius` that is
equivalent to `radius < 0 ∨ radius² < (p.x-z.x)² + (p.y-z.y)²` because
the square root is non-negative. -/
def zoneDamagePlayer (z : Zone) (p : Player) : Player :=
  if p.isDead then p
  else if z.radius < 0 ∨ z.radius ^ 2 < (p.x - z.x) ^ 2 + (p.y - z.y) ^ 2 then
    { p with health := p.health - 1/2
             isDead := if p.health - 1/2 ≤ 0 then true else p.isDead }
  else p

/-- One execution of the `setInterval` game loop body (lines 119-174):
bullet advance + hit detection, then zone shrink, then zone damage. -/
def tick (cosf sinf : ℚ → ℚ) (g : GameState) : GameState :=
  let bp := runBullets cosf sinf g.bullets g.players
  let z := zoneShrink g.zone
  { players := bp.2.map (fun kp => (kp.1, zoneDamagePlayer z kp.2))
    bullets := bp.1
    zone := z }

/-- The states reachable from the server's initial state: the initial
store, closed under the game-loop tick (for any behaviour of the
trigonometric library) and under the four command handlers (for any
command payloads and any environment draws).  These are exactly the
observation points after each command and after each tick. -/
inductive Reachable : GameState → Prop
  | init : Reachable initialGameState
  | tick (g : GameState) (cosf sinf : ℚ → ℚ) :
      Reachable g → Reachable (tick cosf sinf g)
  | join (g : GameState) (sid name : String) (mode : Mode) (rx ry : ℚ) :
      Reachable g → Reachable (join sid name mode rx ry g)
  | move (g : GameState) (sid : String) (mx my ma : ℚ) :
      Reachable g → Reachable (move sid mx my ma g)
  | shoot (g : GameState) (sid bid : String) :
      Reachable g → Reachable (shoot sid bid g)
  | disconnect (g : GameState) (sid : String) :
      Reachable g → Reachable (disconnect sid g)

/-! ### Association-list lemmas -/

theorem lookupP_setKey_self (k : String) (v : Player) (ps : Players) :
    lookupP k (setKey k v ps) = some v := by
  induction ps with
  | nil => simp [setKey, lookupP]
  | cons kp rest ih =>
      obtain ⟨k', p⟩ := kp
      by_cases h : k' = k
      · simp [setKey, lookupP, h]
      · simp [setKey, lookupP, h, ih]

theorem lookupP_setKey_ne (k k' : String) (v : Player) (ps : Players) (h : k' ≠ k) :
    lookupP k' (setKey k v ps) = lookupP k' ps := by
  induction ps with
  | nil => simp [setKey, lookupP, Ne.symm h]
  | cons kp rest ih =>
      obtain ⟨k'', p⟩ := kp
      by_cases hk : k'' = k
      · subst hk
        simp [setKey, lookupP, Ne.symm h]
      · by_cases hk' : k'' = k'
        · simp [setKey, lookupP, hk, hk', h]
        · simp [setKey, lookupP, hk, hk', ih]

theorem lookupP_updateKey_self (k : String) (f : Player → Player) (ps : Players) :
    lookupP k (updateKey k f ps) = (lookupP k ps).map f := by
  induction ps with
  | nil => simp [updateKey, lookupP]
  | cons kp rest ih =>
      obtain ⟨k', p⟩ := kp
      by_cases h : k' = k
      · simp [updateKey, lookupP, h]
      · simp [updateKey, lookupP, h, ih]

theorem lookupP_updateKey_ne (k k' : String) (f : Player → Player) (ps : Players)
    (h : k' ≠ k) :
    lookupP k' (updateKey k f ps) = lookupP k' ps := by
  induction ps with
  | nil => simp [updateKey]
  | cons kp rest ih =>
      obtain ⟨k'', p⟩ := kp
      by_cases hk : k'' = k
      · subst hk
        simp [updateKey, lookupP, Ne.symm h]
      · by_cases hk' : k'' = k'
        · simp [updateKey, lookupP, hk, hk', h]
        · simp [updateKey, lookupP, hk, hk', ih]

theorem updateKey_absent (k : String) (f : Player → Player) (ps : Players)
    (h : lookupP k ps = none) :
    updateKey k f ps = ps := by
  induction ps with
  | nil => simp [updateKey]
  | cons kp rest ih =>
      obtain ⟨k', p⟩ := kp
      by_cases hk : k' = k
      · simp [lookupP, hk] at h
      · simp [lookupP, hk] at h
        simp [updateKey, hk, ih h]

theorem setKey_keys_of_mem (k : String) (v : Player) (ps : Players) (p : Player)
    (h : lookupP k ps = some p) :
    (setKey k v ps).map Prod.fst = ps.map Prod.fst := by
  induction ps with
  | nil => simp [lookupP] at h
  | cons kp rest ih =>
      obtain ⟨k', q⟩ := kp
      by_cases hk : k' = k
      · simp [setKey, hk]
      · simp [lookupP, hk] at h
        simp [setKey, hk, ih h]

theorem mem_setKey (k : String) (v : Player) (ps : Players) (kp : String × Player)
    (h : kp ∈ setKey k v ps) :
    kp = (k, v) ∨ kp ∈ ps := by
  induction ps with
  | nil => simpa [setKey] using h
  | cons hd rest ih =>
      obtain ⟨k', p⟩ := hd
      by_cases hk : k' = k
      · subst hk
        simp [setKey] at h
        rcases h with h | h
        · exact Or.inl (by simp [h])
        · exact Or.inr (by simp [h])
      · simp [setKey, hk] at h
        rcases h with h | h
        · exact Or.inr (by simp [h])
        · rcases ih h with h' | h'
          · exact Or.inl h'
          · exact Or.inr (by simp [h'])

theorem mem_updateKey (k : String) (f : Player → Player) (ps : Players)
    (kp : String × Player) (h : kp ∈ updateKey k f ps) :
    kp ∈ ps ∨ ∃ q, (k, q) ∈ ps ∧ kp = (k, f q) := by
  induction ps with
  | nil => simp [updateKey] at h
  | cons hd rest ih =>
      obtain ⟨k', p⟩ := hd
      by_cases hk : k' = k
      · subst hk
        simp [updateKey] at h
        rcases h with h | h
        · exact Or.inr ⟨p, by simp, by simp [h]⟩
        · exact Or.inl (by simp [h])
      · simp [updateKey, hk] at h
        rcases h with h | h
        · exact Or.inl (by simp [h])
        · rcases ih h with h' | ⟨q, hq, hkp⟩
          · exact Or.inl (by simp [h'])
          · exact Or.inr ⟨q, by simp [hq], hkp⟩

theorem mem_removeKey (k : String) (ps : Players) (kp : String × Player)
    (h : kp ∈ removeKey k ps) :
    kp ∈ ps := by
  induction ps with
  | nil => simp [removeKey] at h
  | cons hd rest ih =>
      obtain ⟨k', p⟩ := hd
      by_cases hk : k' = k
      · subst hk
        simp [removeKey] at h
        simp [h]
      · simp [removeKey, hk] at h
        rcases h with h | h
        · simp [h]
        · simp [ih h]

theorem findHit_spec (b : Bullet) (ps : Players) (vpid : String) (vp : Player)
    (h : findHit b ps = some (vpid, vp)) :
    (vpid, vp) ∈ ps ∧ isHitCandidate b vp = true := by
  induction ps with
  | nil => simp [findHit] at h
  | cons hd rest ih =>
      obtain ⟨k, p⟩ := hd
      by_cases hc : isHitCandidate b p
      · simp [findHit, hc] at h
        exact ⟨by simp [h.1, h.2], h.2 ▸ hc⟩
      · simp [findHit, hc] at h
        exact ⟨by simp [(ih h).1], (ih h).2⟩

theorem lookupP_of_mem_nodup (ps : Players) (k : String) (p : Player)
    (hnd : (ps.map Prod.fst).Nodup) (h : (k, p) ∈ ps) :
    lookupP k ps = some p := by
  induction ps with
  | nil => simp at h
  | cons hd rest ih =>
      obtain ⟨k', q⟩ := hd
      rw [List.map_cons, List.nodup_cons] at hnd
      simp at h
      rcases h with h | h
      · simp [lookupP, h.1, h.2]
      · have hne : k' ≠ k := by
          intro hk
          subst hk
          exact hnd.1 (List.mem_map.mpr ⟨(k', p), h, rfl⟩)
        simp [lookupP, hne, ih hnd.2 h]

/-! ### C10: display-name defaulting on join -/

/-- C10: for every join command, the created player's display name is the
literal string "Player" when the name argument is the empty string (the
only falsy string), and equals the given name otherwise
(`name: name || "Player"`). -/
theorem join_name_defaults (sid name : String) (mode : Mode) (rx ry : ℚ) (g : GameState) :
    Option.map Player.name (lookupP sid (join sid name mode rx ry g).players) =
      some (if name = "" then "Player" else name) := by
  simp [join, lookupP_setKey_self, freshPlayer]

/-! ### C5: move and shoot are no-ops for a dead player -/

/-- C5: for every player whose dead flag is true, any move or shoot command
from that session leaves the game state — in particular the player's
position, health, and angle — entirely unchanged. -/
theorem dead_player_move_shoot_noop (sid : String) (mx my ma : ℚ) (bid : String)
    (g : GameState) (p : Player) (hp : lookupP sid g.players = some p)
    (hdead : p.isDead = true) :
    move sid mx my ma g = g ∧ shoot sid bid g = g := by
  constructor
  · simp [move, hp, hdead]
  · simp [shoot, hp, hdead]

/-- Witness for C5 at a concrete store holding one dead player. -/
theorem dead_player_move_shoot_noop_witness :
    move "s" 3 4 1 ⟨[("s", ⟨"s", "N", 5, 5, 0, "t", 0, true, 0⟩)], [], initialGameState.zone⟩ =
      ⟨[("s", ⟨"s", "N", 5, 5, 0, "t", 0, true, 0⟩)], [], initialGameState.zone⟩ ∧
    shoot "s" "b1" ⟨[("s", ⟨"s", "N", 5, 5, 0, "t", 0, true, 0⟩)], [], initialGameState.zone⟩ =
      ⟨[("s", ⟨"s", "N", 5, 5, 0, "t", 0, true, 0⟩)], [], initialGameState.zone⟩ :=
  dead_player_move_shoot_noop "s" 3 4 1 "b1" _ ⟨"s", "N", 5, 5, 0, "t", 0, true, 0⟩
    (by decide) rfl

/-! ### C1: a second join for the same session is NOT a no-op -/

/-- C1 counterexample: the join handler performs no existing-player check.
Joining twice with session id "s1" (random draws 1/10 then 3/10) moves the
stored player from x = 200 to x = 600: the second join is not a no-op. -/
theorem join_not_idempotent_counterexample :
    Option.map Player.x (lookupP "s1"
        (join "s1" "A" Mode.solo (1/10) 0 initialGameState).players) = some 200 ∧
    Option.map Player.x (lookupP "s1"
        (join "s1" "A" Mode.solo (3/10) 0
          (join "s1" "A" Mode.solo (1/10) 0 initialGameState)).players) = some 600 := by
  constructor
  · norm_num [join, initialGameState, setKey, lookupP, freshPlayer, MAP_SIZE]
  · norm_num [join, initialGameState, setKey, lookupP, freshPlayer, MAP_SIZE]

/-- C1 as amended: a join for a session id that already has a player is not
rejected; it overwrites the stored player in place with a freshly
initialized one (health 100, kills 0, alive, angle 0, position from the
new random draws, team identity recomputed from the current player count
and mode), preserving only the entry's position in the store's key order. -/
theorem join_overwrites_existing (sid name : String) (mode : Mode) (rx ry : ℚ)
    (g : GameState) (p : Player) (hp : lookupP sid g.players = some p) :
    lookupP sid (join sid name mode rx ry g).players =
      some (freshPlayer sid name mode rx ry g.players.length) ∧
    (join sid name mode rx ry g).players.map Prod.fst = g.players.map Prod.fst :=
  ⟨by simp [join, lookupP_setKey_self],
   by simpa [join] using setKey_keys_of_mem sid _ g.players p hp⟩

/-- Witness for C1's amended theorem: re-joining after a first join. -/
theorem join_overwrites_existing_witness :
    lookupP "s1" (join "s1" "B" Mode.solo (3/10) 0
        (join "s1" "A" Mode.solo (1/10) 0 initialGameState)).players =
      some (freshPlayer "s1" "B" Mode.solo (3/10) 0
        (join "s1" "A" Mode.solo (1/10) 0 initialGameState).players.length) ∧
    (join "s1" "B" Mode.solo (3/10) 0
        (join "s1" "A" Mode.solo (1/10) 0 initialGameState)).players.map Prod.fst =
      (join "s1" "A" Mode.solo (1/10) 0 initialGameState).players.map Prod.fst :=
  join_overwrites_existing "s1" "B" Mode.solo (3/10) 0 _
    (freshPlayer "s1" "A" Mode.solo (1/10) 0 0)
    (by simp [join, initialGameState, lookupP_setKey_self])

/-! ### C8: duo team assignment by join order -/

/-- C8: four distinct sessions joining duo mode in sequence from the initial
store: the first two share team "team-d-0", the third and fourth share
team "team-d-1", and the two team identities are distinct. -/
theorem duo_join_pairs_teams (s1 s2 s3 s4 n1 n2 n3 n4 : String)
    (a1 b1 a2 b2 a3 b3 a4 b4 : ℚ)
    (h12 : s1 ≠ s2) (h13 : s1 ≠ s3) (h14 : s1 ≠ s4)
    (h23 : s2 ≠ s3) (h24 : s2 ≠ s4) (h34 : s3 ≠ s4) :
    Option.map Player.teamId (lookupP s1
        (join s4 n4 Mode.duo a4 b4 (join s3 n3 Mode.duo a3 b3 (join s2 n2 Mode.duo a2 b2
          (join s1 n1 Mode.duo a1 b1 initialGameState)))).players) = some "team-d-0" ∧
    Option.map Player.teamId (lookupP s2
        (join s4 n4 Mode.duo a4 b4 (join s3 n3 Mode.duo a3 b3 (join s2 n2 Mode.duo a2 b2
          (join s1 n1 Mode.duo a1 b1 initialGameState)))).players) = some "team-d-0" ∧
    Option.map Player.teamId (lookupP s3
        (join s4 n4 Mode.duo a4 b4 (join s3 n3 Mode.duo a3 b3 (join s2 n2 Mode.duo a2 b2
          (join s1 n1 Mode.duo a1 b1 initialGameState)))).players) = some "team-d-1" ∧
    Option.map Player.teamId (lookupP s4
        (join s4 n4 Mode.duo a4 b4 (join s3 n3 Mode.duo a3 b3 (join s2 n2 Mode.duo a2 b2
          (join s1 n1 Mode.duo a1 b1 initialGameState)))).players) = some "team-d-1" ∧
    ("team-d-0" : String) ≠ "team-d-1" := by
  simp only [join, initialGameState]
  simp [setKey, lookupP, freshPlayer, teamIdFor,
    h12, h13, h14, h23, h24, h34, Ne.symm h12, Ne.symm h13, Ne.symm h14,
    Ne.symm h23, Ne.symm h24, Ne.symm h34]
  exact ⟨rfl, rfl⟩

/-- Witness for C8 with four concrete distinct session ids. -/
theorem duo_join_pairs_teams_witness :
    Option.map Player.teamId (lookupP "p1"
        (join "p4" "D" Mode.duo 0 0 (join "p3" "C" Mode.duo 0 0 (join "p2" "B" Mode.duo 0 0
          (join "p1" "A" Mode.duo 0 0 initialGameState)))).players) = some "team-d-0" ∧
    Option.map Player.teamId (lookupP "p2"
        (join "p4" "D" Mode.duo 0 0 (join "p3" "C" Mode.duo 0 0 (join "p2" "B" Mode.duo 0 0
          (join "p1" "A" Mode.duo 0 0 initialGameState)))).players) = some "team-d-0" ∧
    Option.map Player.teamId (lookupP "p3"
        (join "p4" "D" Mode.duo 0 0 (join "p3" "C" Mode.duo 0 0 (join "p2" "B" Mode.duo 0 0
          (join "p1" "A" Mode.duo 0 0 initialGameState)))).players) = some "team-d-1" ∧
    Option.map Player.teamId (lookupP "p4"
        (join "p4" "D" Mode.duo 0 0 (join "p3" "C" Mode.duo 0 0 (join "p2" "B" Mode.duo 0 0
          (join "p1" "A" Mode.duo 0 0 initialGameState)))).players) = some "team-d-1" ∧
    ("team-d-0" : String) ≠ "team-d-1" :=
  duo_join_pairs_teams "p1" "p2" "p3" "p4" "A" "B" "C" "D" 0 0 0 0 0 0 0 0
    (by decide) (by decide) (by decide) (by decide) (by decide) (by decide)

/-! ### Hit-resolution lemmas -/

theorem applyHit_lookup_ne (b : Bullet) (vpid : String) (vp : Player) (ps : Players)
    (pid : String) (p : Player) (hne : pid ≠ vpid) (hp : lookupP pid ps = some p) :
    ∃ q, lookupP pid (applyHit b vpid vp ps) = some q ∧
      q.health = p.health ∧ q.isDead = p.isDead := by
  unfold applyHit
  have h1 : lookupP pid (updateKey vpid (fun q =>
      { q with health := q.health - 20
               isDead := if q.health - 20 ≤ 0 then true else q.isDead }) ps) = some p := by
    rw [lookupP_updateKey_ne _ _ _ _ hne]
    exact hp
  by_cases hl : vp.health - 20 ≤ 0
  · simp only [if_pos hl]
    by_cases ho : pid = b.ownerId
    · subst ho
      rw [lookupP_updateKey_self, h1]
      exact ⟨_, rfl, rfl, rfl⟩
    · rw [lookupP_updateKey_ne _ _ _ _ ho]
      exact ⟨p, h1, rfl, rfl⟩
  · simp only [if_neg hl]
    exact ⟨p, h1, rfl, rfl⟩

/-! ### C6: friendly fire never damages -/

/-- C6: processing any single bullet of the game loop (advance, expiry,
hit detection) never reduces the health of a player whose team identity
equals the bullet's team identity — the candidate test requires
`p.teamId !== b.teamId`, whatever the team assignment mode that produced
the team identities. -/
theorem friendly_fire_never_damages (cosf sinf : ℚ → ℚ) (b : Bullet) (ps : Players)
    (pid : String) (p : Player) (hnd : (ps.map Prod.fst).Nodup)
    (hp : lookupP pid ps = some p) (hteam : p.teamId = b.teamId) :
    ∃ q, lookupP pid (stepBullet cosf sinf b ps).2 = some q ∧ q.health = p.health := by
  by_cases hgt : (advanceBullet cosf sinf b).distance > (advanceBullet cosf sinf b).maxDistance
  · refine ⟨p, ?_, rfl⟩
    simp [stepBullet, hgt, hp]
  · rcases hfind : findHit (advanceBullet cosf sinf b) ps with _ | ⟨vpid, vp⟩
    · refine ⟨p, ?_, rfl⟩
      simp [stepBullet, hgt, hfind, hp]
    · have hspec := findHit_spec _ _ _ _ hfind
      have hvp : lookupP vpid ps = some vp := lookupP_of_mem_nodup _ _ _ hnd hspec.1
      have hne : pid ≠ vpid := by
        intro hpe
        subst hpe
        rw [hp] at hvp
        injection hvp with hvp'
        subst hvp'
        have hcand := hspec.2
        simp [isHitCandidate, advanceBullet, hteam] at hcand
      obtain ⟨q, hq, hqh, _⟩ := applyHit_lookup_ne _ vpid vp ps pid p hne hp
      refine ⟨q, ?_, hqh⟩
      simpa [stepBullet, hgt, hfind] using hq

/-- Witness for C6: a same-team player standing right on the bullet's path
keeps their health. -/
theorem friendly_fire_never_damages_witness :
    ∃ q, lookupP "u" (stepBullet (fun _ => 0) (fun _ => 0)
        ⟨"b1", "o", "A", 10, 10, 0, 15, 0, 600⟩
        [("u", ⟨"u", "U", 10, 10, 50, "A", 0, false, 0⟩)]).2 = some q ∧
      q.health = Player.health ⟨"u", "U", 10, 10, 50, "A", 0, false, 0⟩ :=
  friendly_fire_never_damages (fun _ => 0) (fun _ => 0)
    ⟨"b1", "o", "A", 10, 10, 0, 15, 0, 600⟩
    [("u", ⟨"u", "U", 10, 10, 50, "A", 0, false, 0⟩)]
    "u" ⟨"u", "U", 10, 10, 50, "A", 0, false, 0⟩ (by simp) (by simp [lookupP]) rfl

/-! ### C7: a bullet damages at most one player, and is retired on a hit -/

/-- C7: for one bullet of the game loop: if the bullet survives the tick
then no player was touched at all, and at most one player's health is
changed by processing the bullet (the bullet is spliced out on its first
qualifying hit, so over its whole lifetime it damages at most one player). -/
theorem bullet_hits_at_most_once (cosf sinf : ℚ → ℚ) (b : Bullet) (ps : Players) :
    (∀ b', (stepBullet cosf sinf b ps).1 = some b' → (stepBullet cosf sinf b ps).2 = ps) ∧
    (∀ pid1 p1 q1 pid2 p2 q2, lookupP pid1 ps = some p1 → lookupP pid2 ps = some p2 →
      lookupP pid1 (stepBullet cosf sinf b ps).2 = some q1 →
      lookupP pid2 (stepBullet cosf sinf b ps).2 = some q2 →
      q1.health ≠ p1.health → q2.health ≠ p2.health → pid1 = pid2) := by
  by_cases hgt : (advanceBullet cosf sinf b).distance > (advanceBullet cosf sinf b).maxDistance
  · constructor
    · intro b' hb'
      simp [stepBullet, hgt] at hb'
    · intro pid1 p1 q1 pid2 p2 q2 hp1 hp2 hq1 hq2 hh1 hh2
      simp only [stepBullet, hgt, if_pos] at hq1
      rw [hp1] at hq1
      injection hq1 with h
      exact absurd (h ▸ rfl) hh1
  · rcases hfind : findHit (advanceBullet cosf sinf b) ps with _ | ⟨vpid, vp⟩
    · constructor
      · intro b' _
        simp [stepBullet, hgt, hfind]
      · intro pid1 p1 q1 pid2 p2 q2 hp1 hp2 hq1 hq2 hh1 hh2
        simp [stepBullet, hgt, hfind] at hq1
        rw [hp1] at hq1
        injection hq1 with h
        exact absurd (h ▸ rfl) hh1
    · constructor
      · intro b' hb'
        simp [stepBullet, hgt, hfind] at hb'
      · intro pid1 p1 q1 pid2 p2 q2 hp1 hp2 hq1 hq2 hh1 hh2
        simp only [stepBullet, hgt, hfind] at hq1 hq2
        simp at hq1 hq2
        have e1 : pid1 = vpid := by
          by_contra hne
          obtain ⟨q, hq, hqh, _⟩ := applyHit_lookup_ne _ vpid vp ps pid1 p1 hne hp1
          rw [hq] at hq1
          injection hq1 with h
          exact hh1 (h ▸ hqh)
        have e2 : pid2 = vpid := by
          by_contra hne
          obtain ⟨q, hq, hqh, _⟩ := applyHit_lookup_ne _ vpid vp ps pid2 p2 hne hp2
          rw [hq] at hq2
          injection hq2 with h
          exact hh2 (h ▸ hqh)
        rw [e1, e2]

/-- Witness for C7: a surviving bullet (no candidate in range) leaves the
player map untouched. -/
theorem bullet_hits_at_most_once_witness :
    (stepBullet (fun _ => 0) (fun _ => 0) ⟨"b1", "o", "A", 0, 0, 0, 15, 0, 600⟩
        [("v", ⟨"v", "V", 1000, 1000, 100, "B", 0, false, 0⟩)]).2 =
      [("v", ⟨"v", "V", 1000, 1000, 100, "B", 0, false, 0⟩)] :=
  (bullet_hits_at_most_once (fun _ => 0) (fun _ => 0)
      ⟨"b1", "o", "A", 0, 0, 0, 15, 0, 600⟩
      [("v", ⟨"v", "V", 1000, 1000, 100, "B", 0, false, 0⟩)]).1
    (advanceBullet (fun _ => 0) (fun _ => 0) ⟨"b1", "o", "A", 0, 0, 0, 15, 0, 600⟩)
    (by norm_num [stepBullet, advanceBullet, findHit, isHitCandidate])

/-! ### C9: bullets of a disconnected owner resolve without kill credit -/

/-- C9: when a bullet's owner is no longer in the store and the bullet
scores a lethal hit, the bullet is still retired, the victim loses 20
health and is marked dead, and no player's kill counter changes
(`if (killer) killer.kills++` finds no killer). -/
theorem absent_owner_no_kill_credit (cosf sinf : ℚ → ℚ) (b : Bullet) (ps : Players)
    (vpid : String) (vp : Player) (hnd : (ps.map Prod.fst).Nodup)
    (howner : lookupP b.ownerId ps = none)
    (hdist : ¬ (advanceBullet cosf sinf b).distance > (advanceBullet cosf sinf b).maxDistance)
    (hfind : findHit (advanceBullet cosf sinf b) ps = some (vpid, vp))
    (hlethal : vp.health - 20 ≤ 0) :
    (stepBullet cosf sinf b ps).1 = none ∧
    (∃ q, lookupP vpid (stepBullet cosf sinf b ps).2 = some q ∧
      q.health = vp.health - 20 ∧ q.isDead = true) ∧
    (∀ pid p, lookupP pid ps = some p →
      ∃ q, lookupP pid (stepBullet cosf sinf b ps).2 = some q ∧ q.kills = p.kills) := by
  have hvp : lookupP vpid ps = some vp :=
    lookupP_of_mem_nodup _ _ _ hnd (findHit_spec _ _ _ _ hfind).1
  have hov : b.ownerId ≠ vpid := by
    intro h
    rw [h, hvp] at howner
    exact Option.noConfusion howner
  have hres : (stepBullet cosf sinf b ps).2 =
      updateKey vpid (fun q =>
        { q with health := q.health - 20
                 isDead := if q.health - 20 ≤ 0 then true else q.isDead }) ps := by
    have habs : lookupP b.ownerId (updateKey vpid (fun q =>
        { q with health := q.health - 20
                 isDead := if q.health - 20 ≤ 0 then true else q.isDead }) ps) = none := by
      rw [lookupP_updateKey_ne _ _ _ _ hov]
      exact howner
    have hstep : (stepBullet cosf sinf b ps).2 =
        applyHit (advanceBullet cosf sinf b) vpid vp ps := by
      simp [stepBullet, hdist, hfind]
    rw [hstep]
    simp only [applyHit]
    rw [if_pos hlethal]
    exact updateKey_absent _ _ _ habs
  refine ⟨by simp [stepBullet, hdist, hfind], ⟨?_, ?_⟩⟩
  · refine ⟨_, by rw [hres, lookupP_updateKey_self, hvp]; rfl, rfl, ?_⟩
    show (if vp.health - 20 ≤ 0 then true else vp.isDead) = true
    rw [if_pos hlethal]
  · intro pid p hp
    by_cases hpe : pid = vpid
    · subst hpe
      rw [hp] at hvp
      injection hvp with h
      refine ⟨_, by rw [hres, lookupP_updateKey_self, hp]; rfl, ?_⟩
      rw [h]
    · exact ⟨p, by rw [hres, lookupP_updateKey_ne _ _ _ _ hpe]; exact hp, rfl⟩

/-- Witness for C9: owner "gone" is absent; the bullet kills the victim at
health 20 without crediting anyone. -/
theorem absent_owner_no_kill_credit_witness :
    (stepBullet (fun _ => 0) (fun _ => 0) ⟨"b1", "gone", "A", 10, 10, 0, 15, 0, 600⟩
        [("v", ⟨"v", "V", 10, 10, 20, "B", 3, false, 0⟩)]).1 = none ∧
    (∃ q, lookupP "v" (stepBullet (fun _ => 0) (fun _ => 0)
        ⟨"b1", "gone", "A", 10, 10, 0, 15, 0, 600⟩
        [("v", ⟨"v", "V", 10, 10, 20, "B", 3, false, 0⟩)]).2 = some q ∧
      q.health = Player.health ⟨"v", "V", 10, 10, 20, "B", 3, false, 0⟩ - 20 ∧
      q.isDead = true) ∧
    (∀ pid p, lookupP pid [("v", (⟨"v", "V", 10, 10, 20, "B", 3, false, 0⟩ : Player))] = some p →
      ∃ q, lookupP pid (stepBullet (fun _ => 0) (fun _ => 0)
        ⟨"b1", "gone", "A", 10, 10, 0, 15, 0, 600⟩
        [("v", ⟨"v", "V", 10, 10, 20, "B", 3, false, 0⟩)]).2 = some q ∧
        q.kills = p.kills) :=
  absent_owner_no_kill_credit (fun _ => 0) (fun _ => 0)
    ⟨"b1", "gone", "A", 10, 10, 0, 15, 0, 600⟩
    [("v", ⟨"v", "V", 10, 10, 20, "B", 3, false, 0⟩)]
    "v" ⟨"v", "V", 10, 10, 20, "B", 3, false, 0⟩
    (by simp) (by simp [lookupP]) (by norm_num [advanceBullet])
    (by
      norm_num [findHit, isHitCandidate, advanceBullet]
      intro h
      exact absurd (h (by decide)) (by decide))
    (by norm_num)

/-! ### Zone lemmas -/

theorem tick_zone (cosf sinf : ℚ → ℚ) (g : GameState) :
    (tick cosf sinf g).zone = zoneShrink g.zone := rfl

theorem join_zone (sid name : String) (mode : Mode) (rx ry : ℚ) (g : GameState) :
    (join sid name mode rx ry g).zone = g.zone := rfl

theorem move_zone (sid : String) (mx my ma : ℚ) (g : GameState) :
    (move sid mx my ma g).zone = g.zone := by
  cases h : lookupP sid g.players with
  | none => simp [move, h]
  | some p => by_cases hd : p.isDead = true <;> simp [move, h, hd]

theorem shoot_zone (sid bid : String) (g : GameState) :
    (shoot sid bid g).zone = g.zone := by
  cases h : lookupP sid g.players with
  | none => simp [shoot, h]
  | some p => by_cases hd : p.isDead = true <;> simp [shoot, h, hd]

theorem disconnect_zone (sid : String) (g : GameState) :
    (disconnect sid g).zone = g.zone := rfl

theorem zoneShrink_radius_eq (z : Zone) :
    (zoneShrink z).radius = if z.radius > 50 then z.radius - 1/10 else z.radius := by
  unfold zoneShrink
  split <;> rfl

theorem zoneShrink_radius_inv (z : Zone) (k : ℕ) (hk : k ≤ 11500)
    (hr : z.radius = 1200 - (k : ℚ)/10) :
    ∃ m : ℕ, m ≤ 11500 ∧ (zoneShrink z).radius = 1200 - (m : ℚ)/10 := by
  rw [zoneShrink_radius_eq]
  by_cases hlt : k < 11500
  · refine ⟨k + 1, by omega, ?_⟩
    have hk9 : (k : ℚ) ≤ 11499 := by exact_mod_cast Nat.le_of_lt_succ hlt
    have hgt : z.radius > 50 := by rw [hr]; linarith
    rw [if_pos hgt, hr]
    push_cast
    ring
  · have hke : k = 11500 := by omega
    have h50 : z.radius = 50 := by rw [hr, hke]; norm_num
    have hng : ¬ z.radius > 50 := by rw [h50]; norm_num
    refine ⟨11500, le_refl _, ?_⟩
    rw [if_neg hng, h50]
    norm_num

/-- Every reachable state's zone radius has the form `1200 - k/10` for some
tick count `k ≤ 11500`: the shrink step fires exactly while the radius is
above the floor, and no command touches the zone. -/
theorem reachable_radius_form (g : GameState) (h : Reachable g) :
    ∃ k : ℕ, k ≤ 11500 ∧ g.zone.radius = 1200 - (k : ℚ)/10 := by
  induction h with
  | init => exact ⟨0, by omega, by norm_num [initialGameState, INITIAL_ZONE_RADIUS]⟩
  | tick g cosf sinf hg ih =>
      obtain ⟨k, hk, hr⟩ := ih
      rw [tick_zone]
      exact zoneShrink_radius_inv g.zone k hk hr
  | join g sid name mode rx ry hg ih => rw [join_zone]; exact ih
  | move g sid mx my ma hg ih => rw [move_zone]; exact ih
  | shoot g sid bid hg ih => rw [shoot_zone]; exact ih
  | disconnect g sid hg ih => rw [disconnect_zone]; exact ih

/-! ### C2: the zone radius is non-increasing and never below 50 -/

/-- C2: at every reachable state, a tick can only shrink the zone radius
(never grow it), and the radius never falls below the floor of 50. -/
theorem zone_radius_non_increasing_and_floored (g : GameState) (cosf sinf : ℚ → ℚ)
    (h : Reachable g) :
    (tick cosf sinf g).zone.radius ≤ g.zone.radius ∧ 50 ≤ g.zone.radius := by
  obtain ⟨k, hk, hr⟩ := reachable_radius_form g h
  constructor
  · rw [tick_zone, zoneShrink_radius_eq]
    by_cases hgt : g.zone.radius > 50
    · rw [if_pos hgt]; linarith
    · rw [if_neg hgt]
  · rw [hr]
    have hkq : (k : ℚ) ≤ 11500 := by exact_mod_cast hk
    linarith

/-- Witness for C2 at the initial state. -/
theorem zone_radius_non_increasing_and_floored_witness :
    (tick (fun _ => 0) (fun _ => 0) initialGameState).zone.radius ≤
      initialGameState.zone.radius ∧
    50 ≤ initialGameState.zone.radius :=
  zone_radius_non_increasing_and_floored initialGameState (fun _ => 0) (fun _ => 0)
    Reachable.init

/-! ### C3: the radius reaches exactly 50 after 11,500 ticks and stays there -/

theorem tick_iterate_zone (cosf sinf : ℚ → ℚ) (g : GameState) (n : ℕ) :
    ((tick cosf sinf)^[n] g).zone = zoneShrink^[n] g.zone := by
  induction n with
  | zero => rfl
  | succ n ih =>
      rw [Function.iterate_succ_apply', Function.iterate_succ_apply', tick_zone, ih]

theorem zoneShrink_iterate_radius (n : ℕ) :
    (zoneShrink^[n] initialGameState.zone).radius = 1200 - ((min n 11500 : ℕ) : ℚ)/10 := by
  induction n with
  | zero => norm_num [initialGameState, INITIAL_ZONE_RADIUS]
  | succ n ih =>
      rw [Function.iterate_succ_apply', zoneShrink_radius_eq, ih]
      by_cases hlt : n < 11500
      · have hmn : min n 11500 = n := by omega
        have hmn1 : min (n + 1) 11500 = n + 1 := by omega
        rw [hmn, hmn1]
        have hk9 : (n : ℚ) ≤ 11499 := by exact_mod_cast Nat.le_of_lt_succ hlt
        have hgt : (1200 : ℚ) - (n : ℚ)/10 > 50 := by linarith
        rw [if_pos hgt]
        push_cast
        ring
      · have hmn : min n 11500 = 11500 := by omega
        have hmn1 : min (n + 1) 11500 = 11500 := by omega
        rw [hmn, hmn1]
        norm_num

/-- C3: starting from the initial state (zone radius 1200, shrinking 0.1
per tick), after exactly 11,500 ticks the radius is exactly 50, and it is
exactly 50 after every further tick, whatever the bullets and players do. -/
theorem zone_radius_reaches_floor (cosf sinf : ℚ → ℚ) :
    ((tick cosf sinf)^[11500] initialGameState).zone.radius = 50 ∧
    ∀ n : ℕ, ((tick cosf sinf)^[11500 + n] initialGameState).zone.radius = 50 := by
  constructor
  · rw [tick_iterate_zone, zoneShrink_iterate_radius, min_self]
    norm_num
  · intro n
    rw [tick_iterate_zone, zoneShrink_iterate_radius]
    have hmn : min (11500 + n) 11500 = 11500 := by omega
    rw [hmn]
    norm_num

/-! ### C4: dead flag ⇔ health ≤ 0, at every observation point -/

/-- The per-store invariant: every stored player's dead flag agrees with
whether their health is at or below zero. -/
def healthDeadInv (ps : Players) : Prop :=
  ∀ kp ∈ ps, kp.2.isDead = decide (kp.2.health ≤ 0)

theorem isDead_update_consistent (p : Player) (d : ℚ) (hd : 0 < d)
    (h : p.isDead = decide (p.health ≤ 0)) :
    (if p.health - d ≤ 0 then true else p.isDead) = decide (p.health - d ≤ 0) := by
  by_cases hle : p.health - d ≤ 0
  · simp [hle]
  · have h1 : ¬ p.health ≤ 0 := by intro h0; exact hle (by linarith)
    rw [if_neg hle, h]
    simp [hle, h1]

theorem healthDeadInv_updateKey (k : String) (f : Player → Player) (ps : Players)
    (hf : ∀ q, q.isDead = decide (q.health ≤ 0) →
      (f q).isDead = decide ((f q).health ≤ 0))
    (h : healthDeadInv ps) : healthDeadInv (updateKey k f ps) := by
  intro kp hkp
  rcases mem_updateKey k f ps kp hkp with hm | ⟨q, hq, himg⟩
  · exact h kp hm
  · rw [himg]
    exact hf q (h (k, q) hq)

theorem applyHit_inv (b : Bullet) (vpid : String) (vp : Player) (ps : Players)
    (h : healthDeadInv ps) : healthDeadInv (applyHit b vpid vp ps) := by
  unfold applyHit
  have h1 : healthDeadInv (updateKey vpid (fun q =>
      { q with health := q.health - 20
               isDead := if q.health - 20 ≤ 0 then true else q.isDead }) ps) :=
    healthDeadInv_updateKey _ _ _
      (fun q hq => isDead_update_consistent q 20 (by norm_num) hq) h
  by_cases hl : vp.health - 20 ≤ 0
  · rw [if_pos hl]
    exact healthDeadInv_updateKey _ _ _ (fun q hq => hq) h1
  · rw [if_neg hl]
    exact h1

theorem stepBullet_inv (cosf sinf : ℚ → ℚ) (b : Bullet) (ps : Players)
    (h : healthDeadInv ps) : healthDeadInv (stepBullet cosf sinf b ps).2 := by
  by_cases hgt : (advanceBullet cosf sinf b).distance > (advanceBullet cosf sinf b).maxDistance
  · simpa [stepBullet, hgt] using h
  · rcases hfind : findHit (advanceBullet cosf sinf b) ps with _ | ⟨vpid, vp⟩
    · simpa [stepBullet, hgt, hfind] using h
    · have := applyHit_inv (advanceBullet cosf sinf b) vpid vp ps h
      simpa [stepBullet, hgt, hfind] using this

theorem runBullets_cons_snd (cosf sinf : ℚ → ℚ) (b : Bullet) (rest : List Bullet)
    (ps : Players) :
    (runBullets cosf sinf (b :: rest) ps).2 =
      (stepBullet cosf sinf b (runBullets cosf sinf rest ps).2).2 := by
  rcases h2 : stepBullet cosf sinf b (runBullets cosf sinf rest ps).2 with ⟨ob, ps''⟩
  cases ob <;> simp [runBullets, h2]

theorem runBullets_inv (cosf sinf : ℚ → ℚ) (bs : List Bullet) (ps : Players)
    (h : healthDeadInv ps) : healthDeadInv (runBullets cosf sinf bs ps).2 := by
  induction bs generalizing ps with
  | nil => simpa [runBullets] using h
  | cons b rest ih =>
      rw [runBullets_cons_snd]
      exact stepBullet_inv cosf sinf b _ (ih ps h)

theorem zoneDamagePlayer_inv (z : Zone) (p : Player)
    (h : p.isDead = decide (p.health ≤ 0)) :
    (zoneDamagePlayer z p).isDead = decide ((zoneDamagePlayer z p).health ≤ 0) := by
  unfold zoneDamagePlayer
  by_cases hd : p.isDead = true
  · simp [hd, h]
    exact of_decide_eq_true (h.symm.trans hd)
  · by_cases hout : z.radius < 0 ∨ z.radius ^ 2 < (p.x - z.x) ^ 2 + (p.y - z.y) ^ 2
    · rw [if_neg (by simp [hd]), if_pos hout]
      exact isDead_update_consistent p (1/2) (by norm_num) h
    · rw [if_neg (by simp [hd]), if_neg hout]
      exact h

theorem tick_inv (cosf sinf : ℚ → ℚ) (g : GameState) (h : healthDeadInv g.players) :
    healthDeadInv (tick cosf sinf g).players := by
  have h1 := runBullets_inv cosf sinf g.bullets g.players h
  intro kp hkp
  simp only [tick, List.mem_map] at hkp
  obtain ⟨kq, hkq, heq⟩ := hkp
  rw [← heq]
  exact zoneDamagePlayer_inv _ _ (h1 kq hkq)

theorem shoot_players (sid bid : String) (g : GameState) :
    (shoot sid bid g).players = g.players := by
  cases h : lookupP sid g.players with
  | none => simp [shoot, h]
  | some p => by_cases hd : p.isDead = true <;> simp [shoot, h, hd]

theorem move_inv (sid : String) (mx my ma : ℚ) (g : GameState)
    (h : healthDeadInv g.players) : healthDeadInv (move sid mx my ma g).players := by
  cases hp : lookupP sid g.players with
  | none => simpa [move, hp] using h
  | some p =>
      by_cases hd : p.isDead = true
      · simpa [move, hp, hd] using h
      · have := healthDeadInv_updateKey sid (fun q =>
            { q with x := max 0 (min MAP_SIZE mx)
                     y := max 0 (min MAP_SIZE my)
                     angle := ma }) g.players (fun q hq => hq) h
        simpa [move, hp, hd] using this

/-- Invariant propagation: every reachable store satisfies `healthDeadInv`. -/
theorem reachable_healthDeadInv (g : GameState) (h : Reachable g) :
    healthDeadInv g.players := by
  induction h with
  | init => intro kp hkp; simp [initialGameState] at hkp
  | tick g cosf sinf hg ih => exact tick_inv cosf sinf g ih
  | join g sid name mode rx ry hg ih =>
      intro kp hkp
      rcases mem_setKey _ _ _ _ (by simpa [join] using hkp) with he | hm
      · rw [he]
        simp [freshPlayer]
      · exact ih kp hm
  | move g sid mx my ma hg ih => exact move_inv sid mx my ma g ih
  | shoot g sid bid hg ih => rw [shoot_players]; exact ih
  | disconnect g sid hg ih =>
      intro kp hkp
      exact ih kp (mem_removeKey _ _ _ (by simpa [disconnect] using hkp))

/-- C4: at every observation point (every reachable state: after each
command and after each tick), every stored player's dead flag is true if
and only if their health is at or below zero. -/
theorem dead_iff_health_nonpositive (g : GameState) (h : Reachable g)
    (kp : String × Player) (hkp : kp ∈ g.players) :
    kp.2.isDead = decide (kp.2.health ≤ 0) :=
  reachable_healthDeadInv g h kp hkp

/-- Witness for C4: the player created by a first join, observed right
after the command. -/
theorem dead_iff_health_nonpositive_witness :
    ("s", freshPlayer "s" "A" Mode.solo 0 0 0).2.isDead =
      decide (("s", freshPlayer "s" "A" Mode.solo 0 0 0).2.health ≤ 0) :=
  dead_iff_health_nonpositive (join "s" "A" Mode.solo 0 0 initialGameState)
    (Reachable.join initialGameState "s" "A" Mode.solo 0 0 Reachable.init)
    ("s", freshPlayer "s" "A" Mode.solo 0 0 0)
    (by simp [join, initialGameState, setKey])

end ArenaServer
